import Mathlib

/-!
Shallow embedding of the SQL-dump parsing core of `merge.py`
(`split_sql_values`, `parse_sql_inserts`, `load_restaurants`).

Strings are modelled as `List Char`.  Quote characters are written through
the named constants below so that the development never needs a literal
quote character inside a Lean string.
-/

/-- The single-quote character. -/
def sqc : Char := Char.ofNat 39

/-- The double-quote character. -/
def dqc : Char := Char.ofNat 34

/-- The backtick character. -/
def btc : Char := Char.ofNat 96

/-- Sentinel for Python's empty `quote_char = ''`; never equal to a quote
character, so comparisons against it behave exactly like Python's. -/
def nulc : Char := Char.ofNat 0

/-- Python/regex whitespace over the ASCII range: space, tab, newline,
carriage return, vertical tab, form feed. -/
def isPySpace (c : Char) : Bool :=
  c = ' ' || c = '\t' || c = '\n' || c = '\r' || c = Char.ofNat 11 || c = Char.ofNat 12

/-- Membership in the character set of Python's `strip("'\x22")`. -/
def isQuoteCh (c : Char) : Bool :=
  c = sqc || c = dqc

/-- Python `str.strip()`: drop whitespace from both ends. -/
def pyStrip (l : List Char) : List Char :=
  ((l.dropWhile isPySpace).reverse.dropWhile isPySpace).reverse

/-- Python `str.strip("'\x22")`: drop every leading and trailing quote
character (single or double), however many there are. -/
def stripQuotes (l : List Char) : List Char :=
  ((l.dropWhile isQuoteCh).reverse.dropWhile isQuoteCh).reverse

/-- The character-scanning loop of `split_sql_values` in `merge.py`
(lines 64-95).  Arguments mirror the Python locals: the remaining input,
`in_quote`, `quote_char`, `cur` and `res`.  The escaped-quote branch
consumes two input characters at once, exactly as the Python loop does via
its extra `i += 1`. -/
def splitLoop : List Char → Bool → Char → List Char → List (List Char) → List (List Char)
  | [], _, _, cur, res => res ++ [pyStrip cur]
  | ch :: rest, inq, qc, cur, res =>
    if ch = sqc ∨ ch = dqc then
      if inq = false then
        splitLoop rest true ch cur res
      else if ch = qc then
        match rest with
        | ch2 :: rest2 =>
          if ch2 = qc then
            splitLoop rest2 true qc (cur ++ [qc]) res
          else
            splitLoop (ch2 :: rest2) false nulc cur res
        | [] => splitLoop [] false nulc cur res
      else
        splitLoop rest inq qc (cur ++ [ch]) res
    else if ch = ',' ∧ inq = false then
      splitLoop rest inq qc [] (res ++ [pyStrip cur])
    else
      splitLoop rest inq qc (cur ++ [ch]) res

/-- `split_sql_values` of `merge.py`: scan a record string into fields,
starting outside any quote with empty accumulators. -/
def split_sql_values (s : List Char) : List (List Char) :=
  splitLoop s false nulc [] []

/-- The per-token cleanup `p.strip().strip("'\x22")` applied on line 99 of
`merge.py`. -/
def cleanToken (t : List Char) : List Char :=
  stripQuotes (pyStrip t)

/-- One record substring turned into its cleaned field list
(`split_sql_values` followed by the line-99 cleanup). -/
def parseRecord (rec : List Char) : List (List Char) :=
  (split_sql_values rec).map cleanToken

/-- Test-input helper: replace the placeholder letter `Q` by a single-quote
character, so concrete SQL fragments can be written without quote literals. -/
def withQ (s : String) : List Char :=
  s.data.map (fun c => if c = 'Q' then sqc else c)

/-!
The statement extractor of `parse_sql_inserts` (merge.py line 49): the regex
`INSERT\s+INTO\s+BT?table BT?\s+VALUES\s*(.+);` (BT a backtick) compiled with
IGNORECASE and DOTALL, iterated with `finditer`.  Each regex construct is
embedded directly; backtracking only matters for `\s*(.+);` (see `tailGo`),
because everywhere else the character that must follow a greedy piece can
never be matched by that piece.
-/

/-- Case-insensitive literal match (the effect of `re.IGNORECASE` on the
literal words of the pattern): consume `lit` from the front of `s`, returning
the rest. -/
def ciMatch : List Char → List Char → Option (List Char)
  | [], s => some s
  | _ :: _, [] => none
  | c :: cs, x :: xs => if x.toLower = c.toLower then ciMatch cs xs else none

/-- The regex piece `\s+`: at least one whitespace character, matched
greedily (the following pattern character is never whitespace, so maximal
munch is exact). -/
def wsPlus (s : List Char) : Option (List Char) :=
  match s with
  | c :: rest => if isPySpace c then some (rest.dropWhile isPySpace) else none
  | [] => none

/-- The regex piece `BT?` (an optional backtick). -/
def optBacktick (s : List Char) : List Char :=
  match s with
  | c :: rest => if c = btc then rest else s
  | [] => s

/-- The regex piece `BT?table BT?` for the escaped table name. -/
def matchTable (tbl s : List Char) : Option (List Char) :=
  match ciMatch tbl (optBacktick s) with
  | some s2 => some (optBacktick s2)
  | none => none

/-- Index of the last occurrence of `c`, if any. -/
def lastIdxOf (c : Char) : List Char → Option Nat
  | [] => none
  | x :: xs =>
    match lastIdxOf c xs with
    | some k => some (k + 1)
    | none => if x = c then some 0 else none

/-- The regex piece `(.+);` under DOTALL: greedy `.+` makes the `;` match at
the last semicolon of the remaining text, and the group needs at least one
character, so the semicolon index must be at least 1.  Returns the captured
group and the text after the match. -/
def matchDotPlusSemi (t : List Char) : Option (List Char × List Char) :=
  match lastIdxOf ';' t with
  | some j => if 1 ≤ j then some (t.take j, t.drop (j + 1)) else none
  | none => none

/-- Backtracking of the greedy `\s*` before `(.+);`: first try with all the
whitespace consumed, then give the whitespace characters back one at a time
(most recently consumed first). -/
def tailGo : List Char → List Char → Option (List Char × List Char)
  | ws, r =>
    match matchDotPlusSemi r with
    | some res => some res
    | none =>
      match ws with
      | [] => none
      | c :: ws2 => tailGo ws2 (c :: r)

/-- The regex tail `\s*(.+);`. -/
def matchTail (t : List Char) : Option (List Char × List Char) :=
  tailGo (t.takeWhile isPySpace).reverse (t.dropWhile isPySpace)

def kwInsert : List Char := "INSERT".data
def kwInto : List Char := "INTO".data
def kwValues : List Char := "VALUES".data

/-- Attempt the whole pattern anchored at the front of `s`; on success
return the captured value-list group and the text after the match. -/
def tryMatch (tbl s : List Char) : Option (List Char × List Char) :=
  (ciMatch kwInsert s).bind fun s1 =>
  (wsPlus s1).bind fun s2 =>
  (ciMatch kwInto s2).bind fun s3 =>
  (wsPlus s3).bind fun s4 =>
  (matchTable tbl s4).bind fun s5 =>
  (wsPlus s5).bind fun s6 =>
  (ciMatch kwValues s6).bind fun s7 =>
  matchTail s7

/-- Fuelled `finditer`: try the pattern at each position, left to right, and
resume after the end of each match.  Every step consumes at least one input
character, so `fuel` at least the input length keeps the fuel from being the
limiting factor: when fuel reaches zero the input is already empty, and the
zero-fuel value coincides with the empty-input value. -/
def finditerF (tbl : List Char) : Nat → List Char → List (List Char)
  | 0, _ => []
  | _ + 1, [] => []
  | fuel + 1, c :: rest =>
    match tryMatch tbl (c :: rest) with
    | some (g, after) => g :: finditerF tbl fuel after
    | none => finditerF tbl fuel rest

/-- `pattern.finditer(sql_text)` of `merge.py`, returning the captured
groups in document order. -/
def finditer (tbl s : List Char) : List (List Char) :=
  finditerF tbl (s.length + 1) s

/-!
The record assembler (merge.py lines 57-61): strip one outer pair of
parentheses when present and split on the regex `\),\s*\(`.
-/

/-- Match the record-boundary regex `\),\s*\(` at the front of `s`: a close
paren, immediately a comma, any whitespace, then an open paren.  Returns the
text after the matched boundary. -/
def matchBoundary (s : List Char) : Option (List Char) :=
  match s with
  | ')' :: ',' :: rest =>
    match rest.dropWhile isPySpace with
    | '(' :: r2 => some r2
    | _ => none
  | _ => none

/-- Fuelled `re.split` on the boundary pattern: scan left to right, cutting
at each non-overlapping boundary match.  As with `finditerF`, every step
consumes at least one character, so fuel beyond the input length is never
the limiting factor. -/
def splitRecordsF : Nat → List Char → List Char → List (List Char)
  | 0, s, acc => [acc ++ s]
  | _ + 1, [], acc => [acc]
  | fuel + 1, c :: rest, acc =>
    match matchBoundary (c :: rest) with
    | some r2 => acc :: splitRecordsF fuel r2 []
    | none => splitRecordsF fuel rest (acc ++ [c])

/-- `re.split(BOUNDARY, inner)` of merge.py line 59. -/
def splitRecords (inner : List Char) : List (List Char) :=
  splitRecordsF (inner.length + 1) inner []

/-- Lines 52-61 of `merge.py` for one captured group: strip whitespace; if
the result is wrapped in parentheses, drop the outer pair and split into
records, otherwise the whole text is a single record. -/
def processVals (g : List Char) : List (List Char) :=
  let vals := pyStrip g
  if vals.head? = some '(' ∧ vals.getLast? = some ')' then
    splitRecords (vals.drop 1).dropLast
  else [vals]

/-- The full `items` list accumulated by `parse_sql_inserts` (lines 50-100):
for every match in document order, for every record of that match, the
cleaned field list. -/
def insertItems (tbl text : List Char) : List (List (List Char)) :=
  ((finditer tbl text).map (fun g => (processVals g).map parseRecord)).flatten

/-- `max(len(r) for r in items)` folded as a running maximum. -/
def maxLen (items : List (List (List Char))) : Nat :=
  (items.map List.length).foldl max 0

/-- The generated generic column names `col_1`, `col_2`, ... -/
def mkCols (n : Nat) : List String :=
  (List.range n).map (fun i => "col_" ++ toString (i + 1))

/-- One DataFrame row: pandas pads a record shorter than the column count
with missing values (`none`). -/
def padRow (n : Nat) (r : List (List Char)) : List (Option String) :=
  r.map (fun f => some (String.mk f)) ++ List.replicate (n - r.length) none

/-- The materialized DataFrame: ordered column names and ordered rows of
optional string cells. -/
structure Table where
  cols : List String
  rows : List (List (Option String))

deriving instance DecidableEq for Table

deriving instance DecidableEq for Except

/-- Lines 101-107 of `merge.py`: an explicit empty frame when no items were
collected, otherwise `pd.DataFrame(items, columns=cols)` with the inferred
maximal width. -/
def materialize (items : List (List (List Char))) : Table :=
  if items = [] then ⟨[], []⟩
  else ⟨mkCols (maxLen items), items.map (padRow (maxLen items))⟩

/-- `parse_sql_inserts` of `merge.py`, from raw text to the materialized
table. -/
def parse_sql_inserts (tbl text : List Char) : Table :=
  materialize (insertItems tbl text)

def tblRestaurants : List Char := "restaurants".data

/-- `df.empty` for our tables: pandas reports a frame as empty when either
axis has length zero. -/
def Table.isEmptyT (t : Table) : Bool :=
  t.rows.isEmpty || t.cols.isEmpty

/-- Lines 124-125 of `merge.py`: when at least four columns exist, rename
the first four to the restaurant schema, keeping any further columns. -/
def renameRestaurant (t : Table) : Table :=
  if 4 ≤ t.cols.length then
    ⟨["restaurant_id", "restaurant_name", "cuisine", "rating"] ++ t.cols.drop 4, t.rows⟩
  else t

def noInsertMsg : String := "No INSERT INTO restaurants statements found in SQL file"

/-- The SQL branch of `load_restaurants` (merge.py lines 116-126), for the
run with no CSV fallback: parse the text, fail on an empty parse, otherwise
rename the leading columns.  The file-system access that produces `text` is
outside the modelled core. -/
def load_restaurants (text : List Char) : Except String Table :=
  let df := parse_sql_inserts tblRestaurants text
  if df.isEmptyT then Except.error noInsertMsg
  else Except.ok (renameRestaurant df)

/-!
Helper lemmas about the scanner and the generic list combinators.
-/

/-- Every branch of the scanner either recurses or appends the pending field
to `res`; the final result is therefore strictly longer than `res`.
(Auxiliary form, by strong induction on the input length.) -/
theorem splitLoop_length_aux : ∀ (n : Nat) (s : List Char), s.length ≤ n →
    ∀ (inq : Bool) (qc : Char) (cur : List Char) (res : List (List Char)),
      res.length < (splitLoop s inq qc cur res).length := by
  intro n
  induction n with
  | zero =>
    intro s hs inq qc cur res
    have hnil : s = [] := List.length_eq_zero.mp (Nat.le_zero.mp hs)
    subst hnil
    simp [splitLoop]
  | succ n ih =>
    intro s hs inq qc cur res
    match s with
    | [] => simp [splitLoop]
    | ch :: rest =>
      have hr : rest.length ≤ n := by
        simp only [List.length_cons] at hs; omega
      rw [splitLoop.eq_def]
      simp only []
      split
      · split
        · exact ih rest hr true ch cur res
        · split
          · split
            · split
              · exact ih _ (by simp only [List.length_cons] at hr; omega) true qc (cur ++ [qc]) res
              · exact ih _ hr false nulc cur res
            · exact ih [] (Nat.zero_le n) false nulc cur res
          · exact ih rest hr inq qc (cur ++ [ch]) res
      · split
        · exact lt_trans (by simp) (ih rest hr inq qc [] (res ++ [pyStrip cur]))
        · exact ih rest hr inq qc (cur ++ [ch]) res

/-- Every branch of the scanner either recurses or appends the pending field
to `res`; the final result is therefore strictly longer than `res`. -/
theorem splitLoop_length (s : List Char) (inq : Bool) (qc : Char) (cur : List Char)
    (res : List (List Char)) : res.length < (splitLoop s inq qc cur res).length :=
  splitLoop_length_aux s.length s (le_refl _) inq qc cur res

/-- The tokenizer always produces at least one field. -/
theorem split_sql_values_length (s : List Char) : 1 ≤ (split_sql_values s).length := by
  simpa using splitLoop_length s false nulc [] []

/-- A cleaned record always has at least one field. -/
theorem parseRecord_length (rec : List Char) : 1 ≤ (parseRecord rec).length := by
  simpa [parseRecord] using split_sql_values_length rec

/-- Every record in `insertItems` is the cleaned field list of some record
substring. -/
theorem mem_insertItems {tbl text : List Char} {r : List (List Char)}
    (h : r ∈ insertItems tbl text) : ∃ rec, r = parseRecord rec := by
  rw [insertItems, List.mem_flatten] at h
  obtain ⟨l, hl, hr⟩ := h
  rw [List.mem_map] at hl
  obtain ⟨g, _, rfl⟩ := hl
  rw [List.mem_map] at hr
  obtain ⟨rec, _, rfl⟩ := hr
  exact ⟨rec, rfl⟩

/-- The seed is a lower bound of a left fold by `max`. -/
theorem foldlMax_init : ∀ (l : List Nat) (a : Nat), a ≤ l.foldl max a
  | [], a => le_refl a
  | x :: xs, a => le_trans (le_max_left a x) (foldlMax_init xs (max a x))

/-- Every member is a lower bound of a left fold by `max`. -/
theorem foldlMax_le_of_mem : ∀ {l : List Nat} {b : Nat} (a : Nat), b ∈ l → b ≤ l.foldl max a
  | x :: xs, b, a, h => by
    rcases List.mem_cons.mp h with rfl | h
    · exact le_trans (le_max_right a b) (foldlMax_init xs (max a b))
    · exact foldlMax_le_of_mem (max a x) h

/-- A left fold by `max` is either a member of the list or the seed. -/
theorem foldlMax_choice : ∀ (l : List Nat) (a : Nat), l.foldl max a ∈ l ∨ l.foldl max a = a
  | [], _ => Or.inr rfl
  | x :: xs, a => by
    rcases foldlMax_choice xs (max a x) with h | h
    · exact Or.inl (List.mem_cons_of_mem _ h)
    · rw [List.foldl_cons, h]
      rcases max_choice a x with h2 | h2
      · exact Or.inr h2
      · refine Or.inl ?_
        rw [h2]
        exact List.mem_cons_self x xs

/-- The head surviving a `dropWhile` fails the predicate. -/
theorem head?_dropWhile_false {p : Char → Bool} :
    ∀ {l : List Char} {c : Char}, (l.dropWhile p).head? = some c → p c = false := by
  intro l
  induction l with
  | nil => intro c h; simp at h
  | cons x xs ih =>
    intro c h
    rw [List.dropWhile_cons] at h
    by_cases hx : p x
    · rw [if_pos hx] at h; exact ih h
    · rw [if_neg hx] at h
      simp only [List.head?_cons, Option.some.injEq] at h
      subst h
      exact Bool.not_eq_true _ ▸ (by simpa using hx)

/-- A nonempty suffix has the same last element as the whole list. -/
theorem getLast?_of_suffix {l s : List Char} (h : s <:+ l) (hs : s ≠ []) :
    s.getLast? = l.getLast? := by
  obtain ⟨t, rfl⟩ := h
  exact (List.getLast?_append_of_ne_nil t hs).symm

/-- Dropping while a predicate holds skips a prefix of elements that all
satisfy it. -/
theorem dropWhile_append_all {p : Char → Bool} :
    ∀ (ws l : List Char), (∀ c ∈ ws, p c = true) → (ws ++ l).dropWhile p = l.dropWhile p
  | [], _, _ => rfl
  | c :: ws, l, h => by
    have hc : p c = true := h c (List.mem_cons_self _ _)
    rw [List.cons_append, List.dropWhile_cons, if_pos hc]
    exact dropWhile_append_all ws l (fun x hx => h x (List.mem_cons_of_mem _ hx))

/-!
Claim theorems.
-/

/-- C8: the Value Tokenizer terminates on every input with a final flush of
the in-progress field, so the result always has at least one field; the
empty record string gives exactly one empty field, and an unterminated
quote still yields the content accumulated up to end-of-string. -/
theorem c8_tokenizer_total_flush :
    (∀ s : List Char, 1 ≤ (split_sql_values s).length)
  ∧ split_sql_values [] = [[]]
  ∧ split_sql_values (withQ "Qabc") = ["abc".data] :=
  ⟨split_sql_values_length, by decide, by decide⟩

/-- C4: inside a quoted field, the active quote character immediately
followed by its own repeat consumes both characters and appends exactly one
literal quote to the current field; the record containing an escaped quote
tokenizes to the single field with one literal quote. -/
theorem c4_escaped_quote (qc : Char) (rest cur : List Char) (res : List (List Char))
    (h : qc = sqc ∨ qc = dqc) :
    splitLoop (qc :: qc :: rest) true qc cur res = splitLoop rest true qc (cur ++ [qc]) res
  ∧ split_sql_values (withQ "QOQQBrienQ") = [withQ "OQBrien"] := by
  refine ⟨?_, by decide⟩
  rcases h with rfl | rfl <;> (rw [splitLoop.eq_def]; simp)

/-- Witness for C4 at the single-quote character with empty accumulators. -/
theorem c4_escaped_quote_witness :
    splitLoop [sqc, sqc] true sqc [] [] = splitLoop [] true sqc [sqc] [] :=
  (c4_escaped_quote sqc [] [] [] (Or.inl rfl)).1

/-- C5: a comma outside quotes terminates the current field, a comma inside
quotes is literal content, and the quoted record with an embedded comma
tokenizes to exactly one field. -/
theorem c5_comma_boundary (qc : Char) (rest cur : List Char) (res : List (List Char)) :
    splitLoop (',' :: rest) false qc cur res = splitLoop rest false qc [] (res ++ [pyStrip cur])
  ∧ splitLoop (',' :: rest) true qc cur res = splitLoop rest true qc (cur ++ [',']) res
  ∧ split_sql_values (withQ "QTom, JerryQ") = ["Tom, Jerry".data] := by
  have hq : ¬ (',' = sqc ∨ ',' = dqc) := by decide
  refine ⟨?_, ?_, by decide⟩
  · rw [splitLoop.eq_def]; simp [hq]
  · rw [splitLoop.eq_def]; simp [hq]

/-- C9: a quote character seen in the unquoted state opens quoted mode
wherever it occurs, without being added to the field; the active quote
character not followed by its repeat closes quoted mode, also without being
added; the record with quoting opened mid-field tokenizes to a single field
without the quote characters. -/
theorem c9_quote_transitions (c c2 qc : Char) (rest cur : List Char) (res : List (List Char)) :
    ((c = sqc ∨ c = dqc) → splitLoop (c :: rest) false qc cur res = splitLoop rest true c cur res)
  ∧ ((qc = sqc ∨ qc = dqc) → c2 ≠ qc →
      splitLoop (qc :: c2 :: rest) true qc cur res = splitLoop (c2 :: rest) false nulc cur res)
  ∧ split_sql_values (withQ "abQc,dQe") = ["abc,de".data] := by
  refine ⟨?_, ?_, by decide⟩
  · intro h
    rcases h with rfl | rfl <;> (rw [splitLoop.eq_def]; simp)
  · intro h h2
    rcases h with rfl | rfl <;> (rw [splitLoop.eq_def]; simp [h2])

/-- Witness for C9: opening on a double quote in mid-field, closing on a
single quote followed by a different character. -/
theorem c9_quote_transitions_witness :
    splitLoop [dqc, 'x'] false nulc ['a'] [] = splitLoop ['x'] true dqc ['a'] []
  ∧ splitLoop [sqc, 'x'] true sqc ['a'] [] = splitLoop ['x'] false nulc ['a'] [] :=
  ⟨(c9_quote_transitions dqc 'x' nulc ['x'] ['a'] []).1 (Or.inr rfl),
   (c9_quote_transitions sqc 'x' sqc [] ['a'] []).2.1 (Or.inl rfl) (by decide)⟩

/-- Drop one leading quote character, if there is one. -/
def dropOneLeadQuote : List Char → List Char
  | [] => []
  | c :: r => if isQuoteCh c then r else c :: r

/-- Modelled from the spec: the cleanup the spec claims for line 99 of
`merge.py`, which removes surrounding whitespace and then EXACTLY ONE layer
of leading/trailing quote characters — never more than one quote character
from each end. -/
def stripOneLayer (t : List Char) : List Char :=
  (dropOneLeadQuote (dropOneLeadQuote t).reverse).reverse

/-- A record consisting of eight single-quote characters: an opening quote,
three escaped quotes, and a closing quote. -/
def rec8 : List Char := List.replicate 8 sqc

/-- C3 counterexample: on the record of eight single quotes the tokenizer
produces the single token of three literal quote characters, and the line-99
cleanup `strip` removes ALL of them, leaving the empty field — whereas
removing only one layer (at most one quote per end) would leave one quote
character.  The claim that never more than one quote character is removed
from each end is therefore false on this input. -/
theorem c3_one_layer_counterexample :
    split_sql_values rec8 = [[sqc, sqc, sqc]]
  ∧ parseRecord rec8 = [[]]
  ∧ stripOneLayer (pyStrip [sqc, sqc, sqc]) = [sqc]
  ∧ cleanToken [sqc, sqc, sqc] ≠ stripOneLayer (pyStrip [sqc, sqc, sqc]) :=
  ⟨by decide, by decide, by decide, by decide⟩

/-- C3 amended: each token is stripped of surrounding whitespace and then of
ALL leading and trailing quote characters (single or double, possibly more
than one per end); consequently a cleaned token never begins or ends with a
quote character. -/
theorem c3_strip_all_layers (t : List Char) (c : Char) :
    ((cleanToken t).head? = some c → isQuoteCh c = false)
  ∧ ((cleanToken t).getLast? = some c → isQuoteCh c = false) := by
  constructor
  · intro h
    rw [cleanToken, stripQuotes, List.head?_reverse] at h
    have hne : ((pyStrip t).dropWhile isQuoteCh).reverse.dropWhile isQuoteCh ≠ [] := by
      intro hx
      rw [hx] at h
      simp at h
    rw [getLast?_of_suffix (List.dropWhile_suffix isQuoteCh) hne,
      List.getLast?_reverse] at h
    exact head?_dropWhile_false h
  · intro h
    rw [cleanToken, stripQuotes, List.getLast?_reverse] at h
    exact head?_dropWhile_false h

/-- Witness for C3 amended: a token with two leading quote characters cleans
to one whose first character is not a quote. -/
theorem c3_strip_all_layers_witness :
    (cleanToken [sqc, dqc, 'a']).head? = some 'a' ∧ isQuoteCh 'a' = false :=
  ⟨by decide, (c3_strip_all_layers [sqc, dqc, 'a'] 'a').1 (by decide)⟩

/-- The failing input for C1: two complete INSERT statements for the target
table on consecutive lines. -/
def twoStmtText : List Char :=
  "INSERT INTO restaurants VALUES (1);\nINSERT INTO restaurants VALUES (2);".data

/-- C1 evaluation at the failing input: the greedy `(.+);` of the statement
pattern makes the single match swallow everything up to the LAST semicolon,
so the two statements produce ONE match whose captured group spans both
statements, and the record assembler then accumulates a single garbled
one-field record — not the two records the claim requires. -/
theorem c1_greedy_single_match :
    finditer tblRestaurants twoStmtText =
      ["(1);\nINSERT INTO restaurants VALUES (2)".data]
  ∧ parse_sql_inserts tblRestaurants twoStmtText =
      ⟨["col_1"], [[some "1);\nINSERT INTO restaurants VALUES (2"]]⟩
  ∧ finditer tblRestaurants twoStmtText ≠ ["(1)".data, "(2)".data] :=
  ⟨by decide, by decide, by decide⟩

/-- The end-to-end input of C2. -/
def c2Input : List Char :=
  withQ "INSERT INTO restaurants VALUES (1,QCafe AQ,QCafeQ,4.1),(2,QPlace BQ,QItalianQ,3.9);"

/-- C2: parsing the single two-record INSERT statement and renaming via the
`load_restaurants` path yields exactly two rows and four columns, with the
restaurant schema names and the quoted values unquoted, in document
order. -/
theorem c2_end_to_end :
    load_restaurants c2Input =
      Except.ok ⟨["restaurant_id", "restaurant_name", "cuisine", "rating"],
        [[some "1", some "Cafe A", some "Cafe", some "4.1"],
         [some "2", some "Place B", some "Italian", some "3.9"]]⟩ := by decide

/-- C6: for a nonempty record sequence the materialized table has as many
columns as the longest record (every record fits the width and some record
attains it), keeps every record as a row, and pads the shorter records with
missing cells while preserving every field — no record is truncated or
dropped. -/
theorem c6_widening (items : List (List (List Char))) (h : items ≠ []) :
    (∀ r ∈ items, r.length ≤ (materialize items).cols.length)
  ∧ (∃ r ∈ items, r.length = (materialize items).cols.length)
  ∧ (materialize items).rows.length = items.length
  ∧ List.Forall₂ (fun r row => List.length row = (materialize items).cols.length ∧
      List.take r.length row = r.map (fun f => some (String.mk f)))
      items (materialize items).rows := by
  have hle : ∀ r ∈ items, r.length ≤ maxLen items := fun r hr =>
    foldlMax_le_of_mem 0 (List.mem_map_of_mem List.length hr)
  have hcols : (materialize items).cols.length = maxLen items := by
    rw [materialize, if_neg h]
    simp [mkCols]
  have hrows : (materialize items).rows = items.map (padRow (maxLen items)) := by
    rw [materialize, if_neg h]
  refine ⟨?_, ?_, ?_, ?_⟩
  · intro r hr
    rw [hcols]
    exact hle r hr
  · rcases foldlMax_choice (items.map List.length) 0 with hc | hc
    · rw [List.mem_map] at hc
      obtain ⟨r, hr, hrlen⟩ := hc
      exact ⟨r, hr, by rw [hcols]; exact hrlen⟩
    · obtain ⟨r, hr⟩ := List.exists_mem_of_ne_nil items h
      have h0 : maxLen items = 0 := hc
      have := hle r hr
      exact ⟨r, hr, by rw [hcols]; omega⟩
  · rw [hrows, List.length_map]
  · rw [hrows, List.forall₂_map_right_iff]
    rw [List.forall₂_same]
    intro r hr
    constructor
    · rw [hcols]
      have := hle r hr
      simp [padRow]
      omega
    · rw [padRow, ← List.length_map r (fun f => some (String.mk f)), List.take_left]

/-- An input of lengths 3, 4, 4 for the C6 witness. -/
def ex3 : List (List (List Char)) :=
  [["1".data, "A".data, "C".data],
   ["2".data, "B".data, "D".data, "4".data],
   ["3".data, "E".data, "F".data, "5".data]]

/-- Witness for C6: records of lengths 3, 4, 4 materialize to exactly 4
columns and 3 rows, every record fitting the width. -/
theorem c6_widening_witness :
    (∀ r ∈ ex3, r.length ≤ (materialize ex3).cols.length)
  ∧ (materialize ex3).cols.length = 4 ∧ (materialize ex3).rows.length = 3 :=
  ⟨(c6_widening ex3 (by decide)).1, by decide, by decide⟩

/-- C7: a text with zero matching statements parses to the explicit empty
table — the parse itself is a total function and reports the empty result
rather than failing — and the caller `load_restaurants` is the one that
raises, exactly when the parse produced no rows. -/
theorem c7_empty_parse (text : List Char) :
    (finditer tblRestaurants text = [] → parse_sql_inserts tblRestaurants text = ⟨[], []⟩)
  ∧ (load_restaurants text = Except.error noInsertMsg ↔
      (parse_sql_inserts tblRestaurants text).rows = []) := by
  constructor
  · intro h
    rw [parse_sql_inserts, insertItems, h]
    rfl
  · by_cases hi : insertItems tblRestaurants text = []
    · have hdf : parse_sql_inserts tblRestaurants text = ⟨[], []⟩ := by
        rw [parse_sql_inserts, hi]
        rfl
      simp [load_restaurants, hdf, Table.isEmptyT]
    · obtain ⟨r, hr⟩ := List.exists_mem_of_ne_nil _ hi
      obtain ⟨rec, rfl⟩ := mem_insertItems hr
      have hmax : 1 ≤ maxLen (insertItems tblRestaurants text) :=
        le_trans (parseRecord_length rec)
          (foldlMax_le_of_mem 0 (List.mem_map_of_mem List.length hr))
      have hm : parse_sql_inserts tblRestaurants text =
          ⟨mkCols (maxLen (insertItems tblRestaurants text)),
           (insertItems tblRestaurants text).map
             (padRow (maxLen (insertItems tblRestaurants text)))⟩ := by
        rw [parse_sql_inserts, materialize, if_neg hi]
      have hrows : (parse_sql_inserts tblRestaurants text).rows ≠ [] := by
        rw [hm]
        simpa using hi
      have hcols : (parse_sql_inserts tblRestaurants text).cols ≠ [] := by
        rw [hm]
        simp [mkCols, List.range_eq_nil]
        omega
      have hemp : (parse_sql_inserts tblRestaurants text).isEmptyT = false := by
        rw [Table.isEmptyT]
        simp [hrows, hcols]
      constructor
      · intro he
        exfalso
        simp [load_restaurants, hemp] at he
      · intro h0
        exact absurd h0 hrows

/-- A text containing no INSERT statement at all, for the C7 witness. -/
def noMatchText : List Char := "no matching statements here".data

/-- Witness for C7 at a text with zero matching statements. -/
theorem c7_empty_parse_witness :
    parse_sql_inserts tblRestaurants noMatchText = ⟨[], []⟩
  ∧ load_restaurants noMatchText = Except.error noInsertMsg :=
  ⟨(c7_empty_parse noMatchText).1 (by decide),
   (c7_empty_parse noMatchText).2.mpr (by decide)⟩

/-- C10: the record assembler cuts only at the exact boundary — a close
paren, immediately a comma, optional whitespace, then an open paren; in
particular whitespace between the close paren and the comma defeats the
pattern, so the value list with a space before the comma stays one single
record. -/
theorem c10_boundary_split (s r : List Char) :
    (matchBoundary s = some r ↔
      ∃ ws, (∀ c ∈ ws, isPySpace c = true) ∧ s = ')' :: ',' :: (ws ++ '(' :: r))
  ∧ processVals (withQ "(1,QAQ) ,(2,QBQ)") = [withQ "1,QAQ) ,(2,QBQ"] := by
  refine ⟨⟨?_, ?_⟩, by decide⟩
  · intro h
    unfold matchBoundary at h
    split at h
    · rename_i rest
      split at h
      · rename_i r2 hdrop
        injection h with h
        subst h
        refine ⟨rest.takeWhile isPySpace, fun c hc => List.mem_takeWhile_imp hc, ?_⟩
        conv_lhs => rw [← List.takeWhile_append_dropWhile isPySpace rest]
        rw [hdrop]
      · exact absurd h (by simp)
    · exact absurd h (by simp)
  · rintro ⟨ws, hws, rfl⟩
    show (match (ws ++ '(' :: r).dropWhile isPySpace with
      | '(' :: r2 => some r2
      | _ => none) = some r
    rw [dropWhile_append_all ws _ hws, List.dropWhile_cons, if_neg (by decide)]
    rfl

/-- Witness for C10: a boundary with one space between the comma and the
open paren is recognized, via the characterization applied at a concrete
input. -/
theorem c10_boundary_split_witness :
    matchBoundary [')', ',', ' ', '(', 'x'] = some ['x'] :=
  (c10_boundary_split [')', ',', ' ', '(', 'x'] ['x']).1.mpr
    ⟨[' '], by decide, rfl⟩
